import Mathlib

/-!
Verification of the terraform-state → ansible-inventory plugin
(`src/ansible-terraform.py`).

The file embeds the two components of the plugin:

* `get_tf_state` (state locator, lines 26–50): candidate-path selection
  from the workspace marker file, the missing-file error, and the
  JSON-load step (the actual file read and JSON parse are external
  collaborators, modelled by the `LocatorEnv` oracle fields).
* `InventoryModule.parse` (inventory resolver, lines 52–101): the walk
  over the resource list, the delayed-children mapping, the host/group
  conflict check, and the final delayed-resolution pass.

The ansible `InventoryData` sink is modelled by the `Inventory`
structure with the operations the plugin calls: `add_host`, `add_group`,
`add_child`, `set_variable`, membership in `hosts` and in
`get_groups_dict()` (the set of group names).  `add_host`/`add_group`
are idempotent by name; `add_child` records a (parent, child) edge;
`set_variable` records a binding, later bindings shadowing earlier ones.
-/

/-- JSON values, as far as the plugin stores them (`variables` entries). -/
inductive JValue where
  | null : JValue
  | bool (b : Bool) : JValue
  | num (n : Int) : JValue
  | str (s : String) : JValue
  | arr (elems : List JValue) : JValue
  | obj (fields : List (String × JValue)) : JValue

/-- The `attributes` mapping of one resource instance, with the four keys
the plugin reads: `name`, `children`, `groups`, `variables`. -/
structure Attributes where
  name : String
  children : Option (List String)
  groups : Option (List String)
  vars : Option (List (String × JValue))

/-- One entry of the state document's `resources` list: the plugin reads
`resource.get("provider", "")`, `resource["type"]` and
`resource["instances"][i]["attributes"]`. -/
structure Resource where
  provider : Option String
  type : String
  instances : List Attributes

/-- The parsed state document (only the `resources` key is read). -/
structure StateDoc where
  resources : List Resource

/-- The provider string the plugin matches literally (line 61). -/
def PROVIDER : String := "provider[\"registry.terraform.io/ansible/ansible\"]"

/-- Model of the ansible `InventoryData` sink: host names, group names,
(parent-group, child) edges, and variable bindings in write order. -/
structure Inventory where
  hosts : List String
  groups : List String
  children : List (String × String)
  vars : List (String × String × JValue)

/-- The fresh sink resolution starts from. -/
def Inventory.empty : Inventory := ⟨[], [], [], []⟩

/-- `InventoryData.add_host`: create the host if the name is new (idempotent). -/
def addHost (inv : Inventory) (name : String) : Inventory :=
  if name ∈ inv.hosts then inv else { inv with hosts := inv.hosts ++ [name] }

/-- `InventoryData.add_group`: create the group if the name is new (idempotent). -/
def addGroup (inv : Inventory) (name : String) : Inventory :=
  if name ∈ inv.groups then inv else { inv with groups := inv.groups ++ [name] }

/-- `InventoryData.add_child(group, child)`: record the edge (idempotent). -/
def addChild (inv : Inventory) (group child : String) : Inventory :=
  if (group, child) ∈ inv.children then inv
  else { inv with children := inv.children ++ [(group, child)] }

/-- `InventoryData.set_variable(owner, key, value)`: record the binding;
`lookupVar` makes later writes shadow earlier ones. -/
def setVariable (inv : Inventory) (owner key : String) (v : JValue) : Inventory :=
  { inv with vars := inv.vars ++ [(owner, key, v)] }

/-- The value bound to `key` on the host or group `owner` (last write wins). -/
def lookupVar (inv : Inventory) (owner key : String) : Option JValue :=
  (inv.vars.reverse.find? fun t => t.1 = owner && t.2.1 = key).map (·.2.2)

/-- Lines 91–93: if the `variables` attribute is non-null, set every
key/value pair on the entity `name`. -/
def applyVars (inv : Inventory) (name : String)
    (vars : Option (List (String × JValue))) : Inventory :=
  match vars with
  | none => inv
  | some kvs => kvs.foldl (fun i kv => setVariable i name kv.1 kv.2) inv

/-- The `delayed` mapping (line 58): a `defaultdict(list)` keyed by group
name, in key-insertion order, each value in append order. -/
abbrev Delayed : Type := List (String × List String)

/-- `delayed[group].append(child)` on a `defaultdict(list)`. -/
def delayedAppend (d : Delayed) (group child : String) : Delayed :=
  match d with
  | [] => [(group, [child])]
  | (k, v) :: rest =>
    if k = group then (k, v ++ [child]) :: rest
    else (k, v) :: delayedAppend rest group child

/-- The error raised on a host/group name conflict (line 84). -/
inductive ResolveErr where
  | conflict (name : String) : ResolveErr

/-- Lines 79–86: for each listed group, `add_group`, then fail if the host
name is among the group names, else `add_child(group, host)`. -/
def addHostGroups (host : String) (gs : List String) (inv : Inventory) :
    Inventory × Option ResolveErr :=
  match gs with
  | [] => (inv, none)
  | g :: rest =>
    let inv1 := addGroup inv g
    if host ∈ inv1.groups then (inv1, some (.conflict host))
    else addHostGroups host rest (addChild inv1 g host)

/-- Lines 65–93: process one instance of a resource of type `ty`.
Group: `add_group`, append non-null children to `delayed`, then variables.
Host: `add_host`, handle a non-null `groups` list (conflict check inside),
then variables.  Other types are skipped (`continue`), variables included. -/
def processInstance (ty : String) (data : Attributes) (inv : Inventory)
    (d : Delayed) : (Inventory × Delayed) × Option ResolveErr :=
  let name := data.name
  if ty = "ansible_group" then
    let inv1 := addGroup inv name
    let d1 := match data.children with
      | none => d
      | some cs => cs.foldl (fun acc c => delayedAppend acc name c) d
    ((applyVars inv1 name data.vars, d1), none)
  else if ty = "ansible_host" then
    let inv1 := addHost inv name
    match data.groups with
    | none => ((applyVars inv1 name data.vars, d), none)
    | some gs =>
      match addHostGroups name gs inv1 with
      | (inv2, none) => ((applyVars inv2 name data.vars, d), none)
      | (inv2, some e) => ((inv2, d), some e)
  else ((inv, d), none)

/-- Line 64: the loop over a resource's instances, stopping at the first
raised error (the sink keeps the mutations already made). -/
def processInstances (ty : String) (insts : List Attributes) (inv : Inventory)
    (d : Delayed) : (Inventory × Delayed) × Option ResolveErr :=
  match insts with
  | [] => ((inv, d), none)
  | i :: rest =>
    match processInstance ty i inv d with
    | (s, none) => processInstances ty rest s.1 s.2
    | (s, some e) => (s, some e)

/-- Lines 60–62: skip the resource unless its provider matches `PROVIDER`
literally (`resource.get("provider", "")`). -/
def processResource (r : Resource) (inv : Inventory) (d : Delayed) :
    (Inventory × Delayed) × Option ResolveErr :=
  if r.provider.getD "" = PROVIDER then processInstances r.type r.instances inv d
  else ((inv, d), none)

/-- The main loop over the resource list, stopping at the first error. -/
def processResources (rs : List Resource) (inv : Inventory) (d : Delayed) :
    (Inventory × Delayed) × Option ResolveErr :=
  match rs with
  | [] => ((inv, d), none)
  | r :: rest =>
    match processResource r inv d with
    | (s, none) => processResources rest s.1 s.2
    | (s, some e) => (s, some e)

/-- Lines 97–101, loop body: a child name not yet known as a host and not
yet known as a group is registered as a group; then `add_child`. -/
def resolveChild (inv : Inventory) (group child : String) : Inventory :=
  let inv1 :=
    if child ∉ inv.hosts ∧ child ∉ inv.groups then addGroup inv child else inv
  addChild inv1 group child

/-- Lines 97–101: resolve one delayed (group, children) entry in order. -/
def resolveGroup (inv : Inventory) (group : String) (cs : List String) : Inventory :=
  cs.foldl (fun acc c => resolveChild acc group c) inv

/-- Lines 96–101: resolve the delayed children, entries in key-insertion
order. -/
def resolveDelayed (inv : Inventory) (d : Delayed) : Inventory :=
  d.foldl (fun acc kv => resolveGroup acc kv.1 kv.2) inv

/-- `InventoryModule.parse` run against an arbitrary initial sink: phase 1
(the resource walk) followed, when no error was raised, by phase 2 (delayed
resolution).  On an error the sink is returned as mutated so far. -/
def parseFrom (rs : List Resource) (inv : Inventory) :
    Inventory × Option ResolveErr :=
  match processResources rs inv [] with
  | ((inv1, d), none) => (resolveDelayed inv1 d, none)
  | ((inv1, _), some e) => (inv1, some e)

/-- `InventoryModule.parse` (lines 52–101) against a fresh sink. -/
def parse (rs : List Resource) : Inventory × Option ResolveErr :=
  parseFrom rs Inventory.empty

/-- A filesystem path as its ordered components below the working
directory's root; appending a component with `/` in `pathlib` drops an
empty component (`Path(p) / "" == Path(p)`). -/
def pathAppend (p : List String) (s : String) : List String :=
  if s = "" then p else p ++ [s]

/-- POSIX rendering of a path (`Path.absolute().as_posix()`), the working
directory carried as already-rendered components. -/
def pathString (p : List String) : String :=
  String.intercalate "/" p

/-- The filesystem facts `get_tf_state` consults: the working directory,
the workspace marker file `<cwd>/.terraform/environment` (its text when it
exists), which paths exist, and the external read-plus-JSON-parse of the
file at a path (out-of-scope plumbing, given as an oracle). -/
structure LocatorEnv where
  cwd : List String
  envFile : Option String
  fsExists : List String → Bool
  readJson : List String → Except String StateDoc

/-- Lines 31–39: the candidate state path together with the workspace name
read, if any.  Default `<cwd>/terraform.tfstate`; when the marker file
exists and its text differs from `"default"`, the workspace path
`<cwd>/terraform.tfstate.d/<env_name>/terraform.tfstate`. -/
def tfCandidate (cwd : List String) (envFile : Option String) :
    List String × Option String :=
  match envFile with
  | none => (cwd ++ ["terraform.tfstate"], none)
  | some w =>
    if w ≠ "default" then
      (pathAppend (cwd ++ ["terraform.tfstate.d"]) w ++ ["terraform.tfstate"], some w)
    else (cwd ++ ["terraform.tfstate"], some w)

/-- Line 43: the workspace fragment of the missing-file message.  An unread
workspace (or a falsy one, i.e. the empty string) contributes nothing. -/
def envString (envName : Option String) : String :=
  match envName with
  | some w => if w = "" then "" else " for workspace " ++ w
  | none => ""

/-- `AnsiblePluginError` as raised by the locator, carrying its message. -/
structure LocatorError where
  msg : String

/-- Lines 26–50 (`InventoryModule.get_tf_state`): select the candidate
path; fail when it does not exist, naming the absolute path (and the
workspace when one was read); otherwise read and JSON-parse the file,
wrapping a parse failure. -/
def get_tf_state (E : LocatorEnv) : Except LocatorError StateDoc :=
  let c := tfCandidate E.cwd E.envFile
  if E.fsExists c.1 then
    match E.readJson c.1 with
    | .ok doc => .ok doc
    | .error m => .error ⟨"Failed to load the state file due to:\n" ++ m⟩
  else
    .error ⟨"Could not locate the terraform state file" ++ envString c.2 ++
      ". Expected at: " ++ pathString c.1⟩

/-- The string `sub` occurs contiguously in `s`. -/
def strContains (s sub : String) : Prop :=
  ∃ a b, s = a ++ sub ++ b

/-- A one-instance `ansible_host` resource under the matching provider. -/
def hostRes (n : String) (gs : Option (List String))
    (vs : Option (List (String × JValue))) : Resource :=
  ⟨some PROVIDER, "ansible_host", [⟨n, none, gs, vs⟩]⟩

/-- A one-instance `ansible_group` resource under the matching provider. -/
def groupRes (n : String) (cs : Option (List String))
    (vs : Option (List (String × JValue))) : Resource :=
  ⟨some PROVIDER, "ansible_group", [⟨n, cs, none, vs⟩]⟩

/-- Pointwise containment of sinks: every host, group, child edge and
variable binding of `a` is also present in `b`. -/
def invLE (a b : Inventory) : Prop :=
  (∀ x, x ∈ a.hosts → x ∈ b.hosts) ∧ (∀ x, x ∈ a.groups → x ∈ b.groups) ∧
  (∀ x, x ∈ a.children → x ∈ b.children) ∧ (∀ x, x ∈ a.vars → x ∈ b.vars)

/-- The delayed mapping records `child` under the key `group`. -/
def delayedMem (d : Delayed) (group child : String) : Prop :=
  ∃ l, (group, l) ∈ d ∧ child ∈ l

/-- A phase-1 state flows to another: the sink only grew and no delayed
entry was dropped. -/
def stFlows (s t : Inventory × Delayed) : Prop :=
  invLE s.1 t.1 ∧ ∀ g c, delayedMem s.2 g c → delayedMem t.2 g c

/-- The locator environment of the missing-workspace-state scenario:
marker file text `staging`, no file exists anywhere. -/
def stagingEnv : LocatorEnv :=
  ⟨["/work"], some "staging", fun _ => false, fun _ => .error "unread"⟩

/-- The C4 scenario document: one `ansible_group` `web` with children
`["app1"]` and one `ansible_host` `app1` with null groups and a `port`
variable. -/
def webApp1Doc : List Resource :=
  [groupRes "web" (some ["app1"]) none,
   hostRes "app1" none (some [("port", JValue.num 8080)])]

/-- A document whose host resource name collides with an earlier group. -/
def conflictDoc : List Resource :=
  [groupRes "h" none none, hostRes "h" (some ["g"]) none]

/-- A host `x` declared before a group `g` listing `x` as a child. -/
def hostThenGroupDoc : List Resource :=
  [hostRes "x" none none, groupRes "g" (some ["x"]) none]

/-- A host whose `groups` list contains its own name. -/
def selfGroupHostDoc : List Resource :=
  [hostRes "a" (some ["a"]) none]

/-- Group `A` with children `["B"]` followed by group `B`. -/
def abDoc : List Resource :=
  [groupRes "A" (some ["B"]) none, groupRes "B" none none]

/-- A single host declaring membership in one group. -/
def hgDoc : List Resource :=
  [hostRes "h" (some ["g"]) none]

/-- A document whose only resource carries a non-matching provider. -/
def otherProviderDoc : List Resource :=
  [⟨some "other", "ansible_host", [⟨"h", none, none, none⟩]⟩]

theorem invLE_refl (a : Inventory) : invLE a a :=
  ⟨fun _ h => h, fun _ h => h, fun _ h => h, fun _ h => h⟩

theorem invLE_trans {a b c : Inventory} (h1 : invLE a b) (h2 : invLE b c) :
    invLE a c :=
  ⟨fun x h => h2.1 x (h1.1 x h), fun x h => h2.2.1 x (h1.2.1 x h),
   fun x h => h2.2.2.1 x (h1.2.2.1 x h), fun x h => h2.2.2.2 x (h1.2.2.2 x h)⟩

theorem addHost_le (inv : Inventory) (n : String) : invLE inv (addHost inv n) := by
  unfold addHost
  split
  · exact invLE_refl inv
  · exact ⟨fun x h => List.mem_append_left _ h, fun _ h => h, fun _ h => h,
      fun _ h => h⟩

theorem addGroup_le (inv : Inventory) (n : String) : invLE inv (addGroup inv n) := by
  unfold addGroup
  split
  · exact invLE_refl inv
  · exact ⟨fun _ h => h, fun x h => List.mem_append_left _ h, fun _ h => h,
      fun _ h => h⟩

theorem addChild_le (inv : Inventory) (g c : String) : invLE inv (addChild inv g c) := by
  unfold addChild
  split
  · exact invLE_refl inv
  · exact ⟨fun _ h => h, fun _ h => h, fun x h => List.mem_append_left _ h,
      fun _ h => h⟩

theorem setVariable_le (inv : Inventory) (o k : String) (v : JValue) :
    invLE inv (setVariable inv o k v) :=
  ⟨fun _ h => h, fun _ h => h, fun _ h => h, fun _ h => List.mem_append_left _ h⟩

theorem addHost_mem (inv : Inventory) (n : String) : n ∈ (addHost inv n).hosts := by
  by_cases h : n ∈ inv.hosts
  · simp [addHost, h]
  · simp [addHost, h]

theorem addGroup_mem (inv : Inventory) (n : String) : n ∈ (addGroup inv n).groups := by
  by_cases h : n ∈ inv.groups
  · simp [addGroup, h]
  · simp [addGroup, h]

theorem addChild_mem (inv : Inventory) (g c : String) :
    (g, c) ∈ (addChild inv g c).children := by
  by_cases h : (g, c) ∈ inv.children
  · simp [addChild, h]
  · simp [addChild, h]

theorem addChild_groups (inv : Inventory) (g c : String) :
    (addChild inv g c).groups = inv.groups := by
  unfold addChild
  split <;> rfl

theorem addChild_hosts (inv : Inventory) (g c : String) :
    (addChild inv g c).hosts = inv.hosts := by
  unfold addChild
  split <;> rfl

theorem applyVars_hosts (inv : Inventory) (n : String)
    (vs : Option (List (String × JValue))) : (applyVars inv n vs).hosts = inv.hosts := by
  cases vs with
  | none => rfl
  | some kvs =>
    induction kvs generalizing inv with
    | nil => rfl
    | cons kv rest ih => simpa [applyVars] using ih (setVariable inv n kv.1 kv.2)

theorem applyVars_groups (inv : Inventory) (n : String)
    (vs : Option (List (String × JValue))) : (applyVars inv n vs).groups = inv.groups := by
  cases vs with
  | none => rfl
  | some kvs =>
    induction kvs generalizing inv with
    | nil => rfl
    | cons kv rest ih => simpa [applyVars] using ih (setVariable inv n kv.1 kv.2)

theorem applyVars_children (inv : Inventory) (n : String)
    (vs : Option (List (String × JValue))) :
    (applyVars inv n vs).children = inv.children := by
  cases vs with
  | none => rfl
  | some kvs =>
    induction kvs generalizing inv with
    | nil => rfl
    | cons kv rest ih => simpa [applyVars] using ih (setVariable inv n kv.1 kv.2)

theorem applyVars_le (inv : Inventory) (n : String)
    (vs : Option (List (String × JValue))) : invLE inv (applyVars inv n vs) := by
  cases vs with
  | none => exact invLE_refl inv
  | some kvs =>
    induction kvs generalizing inv with
    | nil => exact invLE_refl inv
    | cons kv rest ih =>
      exact invLE_trans (setVariable_le inv n kv.1 kv.2)
        (by simpa [applyVars] using ih (setVariable inv n kv.1 kv.2))

theorem delayedAppend_mem_self (d : Delayed) (g c : String) :
    delayedMem (delayedAppend d g c) g c := by
  induction d with
  | nil => exact ⟨[c], List.mem_singleton.mpr rfl, List.mem_singleton.mpr rfl⟩
  | cons kv rest ih =>
    obtain ⟨k, v⟩ := kv
    by_cases hk : k = g
    · subst hk
      exact ⟨v ++ [c], by simp [delayedAppend],
        List.mem_append_right _ (List.mem_singleton.mpr rfl)⟩
    · obtain ⟨l, hin, hc⟩ := ih
      exact ⟨l, by simp [delayedAppend, hk, hin], hc⟩

theorem delayedAppend_mem_mono {d : Delayed} {g0 c0 : String} (g c : String)
    (h : delayedMem d g0 c0) : delayedMem (delayedAppend d g c) g0 c0 := by
  induction d with
  | nil => exact absurd h.choose_spec.1 (List.not_mem_nil _)
  | cons kv rest ih =>
    obtain ⟨k, v⟩ := kv
    obtain ⟨l, hin, hc⟩ := h
    by_cases hk : k = g
    · rcases List.mem_cons.mp hin with hhead | htail
      · have hg : g0 = k := (Prod.mk.inj hhead).1
        have hl : l = v := (Prod.mk.inj hhead).2
        refine ⟨v ++ [c], ?_, List.mem_append_left _ (hl ▸ hc)⟩
        rw [hg]
        simp [delayedAppend, hk]
      · exact ⟨l, by simp [delayedAppend, hk, htail], hc⟩
    · rcases List.mem_cons.mp hin with hhead | htail
      · have hg : g0 = k := (Prod.mk.inj hhead).1
        have hl : l = v := (Prod.mk.inj hhead).2
        refine ⟨v, ?_, hl ▸ hc⟩
        rw [hg]
        simp [delayedAppend, hk]
      · obtain ⟨l2, hin2, hc2⟩ := ih ⟨l, htail, hc⟩
        exact ⟨l2, by simp [delayedAppend, hk, hin2], hc2⟩

theorem delayedFold_mono (cs : List String) (g : String) {d : Delayed}
    {g0 c0 : String} (h : delayedMem d g0 c0) :
    delayedMem (cs.foldl (fun acc c => delayedAppend acc g c) d) g0 c0 := by
  induction cs generalizing d with
  | nil => exact h
  | cons c rest ih => exact ih (delayedAppend_mem_mono g c h)

theorem delayedFold_mem (cs : List String) (g c : String) :
    ∀ d : Delayed, c ∈ cs →
      delayedMem (cs.foldl (fun acc x => delayedAppend acc g x) d) g c := by
  induction cs with
  | nil => exact fun d hc => absurd hc (List.not_mem_nil _)
  | cons c1 rest ih =>
    intro d hc
    rcases List.mem_cons.mp hc with rfl | htail
    · exact delayedFold_mono rest g (delayedAppend_mem_self d g c)
    · exact ih _ htail

theorem addHostGroups_le (host : String) (gs : List String) :
    ∀ inv : Inventory, invLE inv (addHostGroups host gs inv).1 := by
  induction gs with
  | nil => exact fun inv => invLE_refl inv
  | cons g rest ih =>
    intro inv
    simp only [addHostGroups]
    split
    · exact addGroup_le inv g
    · exact invLE_trans (addGroup_le inv g)
        (invLE_trans (addChild_le _ g host) (ih _))

theorem addHostGroups_ok (host : String) (gs : List String) :
    ∀ inv inv' : Inventory, addHostGroups host gs inv = (inv', none) →
      ∀ g ∈ gs, g ∈ inv'.groups ∧ (g, host) ∈ inv'.children := by
  induction gs with
  | nil => exact fun inv inv' _ g hg => absurd hg (List.not_mem_nil _)
  | cons g0 rest ih =>
    intro inv inv' h g hg
    simp only [addHostGroups] at h
    by_cases hc : host ∈ (addGroup inv g0).groups
    · rw [if_pos hc] at h
      simp at h
    · rw [if_neg hc] at h
      have hle : invLE (addChild (addGroup inv g0) g0 host) inv' := by
        have := addHostGroups_le host rest (addChild (addGroup inv g0) g0 host)
        rwa [h] at this
      rcases List.mem_cons.mp hg with rfl | htail
      · constructor
        · exact hle.2.1 g (by rw [addChild_groups]; exact addGroup_mem inv g)
        · exact hle.2.2.1 _ (addChild_mem _ g host)
      · exact ih _ inv' h g htail

theorem processInstance_group_eq (data : Attributes) (inv : Inventory) (d : Delayed) :
    processInstance "ansible_group" data inv d =
      ((applyVars (addGroup inv data.name) data.name data.vars,
        match data.children with
        | none => d
        | some cs => cs.foldl (fun acc c => delayedAppend acc data.name c) d),
       none) := rfl

theorem processInstance_host_none_eq (data : Attributes) (inv : Inventory)
    (d : Delayed) (h : data.groups = none) :
    processInstance "ansible_host" data inv d =
      ((applyVars (addHost inv data.name) data.name data.vars, d), none) := by
  unfold processInstance
  simp [h]

theorem processInstance_host_some_eq (data : Attributes) (inv : Inventory)
    (d : Delayed) (gs : List String) (h : data.groups = some gs) :
    processInstance "ansible_host" data inv d =
      (match addHostGroups data.name gs (addHost inv data.name) with
       | (inv2, none) => ((applyVars inv2 data.name data.vars, d), none)
       | (inv2, some e) => ((inv2, d), some e)) := by
  unfold processInstance
  simp [h]

theorem processInstance_other_eq (ty : String) (data : Attributes) (inv : Inventory)
    (d : Delayed) (h1 : ty ≠ "ansible_group") (h2 : ty ≠ "ansible_host") :
    processInstance ty data inv d = ((inv, d), none) := by
  unfold processInstance
  simp [h1, h2]

theorem processInstance_flows (ty : String) (data : Attributes) (inv : Inventory)
    (d : Delayed) : stFlows (inv, d) (processInstance ty data inv d).1 := by
  by_cases hg : ty = "ansible_group"
  · subst hg
    rw [processInstance_group_eq]
    refine ⟨invLE_trans (addGroup_le inv data.name)
      (applyVars_le _ data.name data.vars), ?_⟩
    intro g c h
    cases hcs : data.children with
    | none => simpa [hcs] using h
    | some cs => simpa [hcs] using delayedFold_mono cs data.name h
  · by_cases hh : ty = "ansible_host"
    · subst hh
      cases hgs : data.groups with
      | none =>
        rw [processInstance_host_none_eq data inv d hgs]
        exact ⟨invLE_trans (addHost_le inv data.name)
          (applyVars_le _ data.name data.vars), fun g c h => h⟩
      | some gs =>
        rw [processInstance_host_some_eq data inv d gs hgs]
        rcases hA : addHostGroups data.name gs (addHost inv data.name) with ⟨inv2, oe⟩
        have hle2 : invLE inv inv2 := by
          have hstep := addHostGroups_le data.name gs (addHost inv data.name)
          rw [hA] at hstep
          exact invLE_trans (addHost_le inv data.name) hstep
        cases oe with
        | none =>
          simp only [hA]
          exact ⟨invLE_trans hle2 (applyVars_le inv2 data.name data.vars),
            fun g c h => h⟩
        | some e =>
          simp only [hA]
          exact ⟨hle2, fun g c h => h⟩
    · rw [processInstance_other_eq ty data inv d hg hh]
      exact ⟨invLE_refl inv, fun g c h => h⟩

theorem stFlows_refl (s : Inventory × Delayed) : stFlows s s :=
  ⟨invLE_refl s.1, fun _ _ h => h⟩

theorem stFlows_trans {s t u : Inventory × Delayed} (h1 : stFlows s t)
    (h2 : stFlows t u) : stFlows s u :=
  ⟨invLE_trans h1.1 h2.1, fun g c h => h2.2 g c (h1.2 g c h)⟩

theorem processInstances_flows (ty : String) (insts : List Attributes) :
    ∀ (inv : Inventory) (d : Delayed),
      stFlows (inv, d) (processInstances ty insts inv d).1 := by
  induction insts with
  | nil => exact fun inv d => stFlows_refl _
  | cons i rest ih =>
    intro inv d
    simp only [processInstances]
    rcases hp : processInstance ty i inv d with ⟨s, oe⟩
    have hfl : stFlows (inv, d) s := by
      have := processInstance_flows ty i inv d
      rwa [hp] at this
    cases oe with
    | none => exact stFlows_trans hfl (ih s.1 s.2)
    | some e => exact hfl

theorem processResource_flows (r : Resource) (inv : Inventory) (d : Delayed) :
    stFlows (inv, d) (processResource r inv d).1 := by
  unfold processResource
  split
  · exact processInstances_flows r.type r.instances inv d
  · exact stFlows_refl _

theorem processResources_flows (rs : List Resource) :
    ∀ (inv : Inventory) (d : Delayed),
      stFlows (inv, d) (processResources rs inv d).1 := by
  induction rs with
  | nil => exact fun inv d => stFlows_refl _
  | cons r rest ih =>
    intro inv d
    simp only [processResources]
    rcases hp : processResource r inv d with ⟨s, oe⟩
    have hfl : stFlows (inv, d) s := by
      have := processResource_flows r inv d
      rwa [hp] at this
    cases oe with
    | none => exact stFlows_trans hfl (ih s.1 s.2)
    | some e => exact hfl

theorem resolveChild_le (inv : Inventory) (g c : String) :
    invLE inv (resolveChild inv g c) := by
  unfold resolveChild
  split
  · exact invLE_trans (addGroup_le inv c) (addChild_le _ g c)
  · exact addChild_le inv g c

theorem resolveChild_mem (inv : Inventory) (g c : String) :
    (g, c) ∈ (resolveChild inv g c).children := by
  unfold resolveChild
  split
  · exact addChild_mem _ g c
  · exact addChild_mem inv g c

theorem resolveGroup_le (g : String) (cs : List String) :
    ∀ inv : Inventory, invLE inv (resolveGroup inv g cs) := by
  induction cs with
  | nil => exact fun inv => invLE_refl inv
  | cons c rest ih =>
    exact fun inv => invLE_trans (resolveChild_le inv g c) (ih _)

theorem resolveGroup_mem (g c : String) (cs : List String) (hc : c ∈ cs) :
    ∀ inv : Inventory, (g, c) ∈ (resolveGroup inv g cs).children := by
  induction cs with
  | nil => exact absurd hc (List.not_mem_nil _)
  | cons c1 rest ih =>
    intro inv
    rcases List.mem_cons.mp hc with rfl | htail
    · exact (resolveGroup_le g rest _).2.2.1 _ (resolveChild_mem inv g c)
    · exact ih htail _

theorem resolveDelayed_le (d : Delayed) :
    ∀ inv : Inventory, invLE inv (resolveDelayed inv d) := by
  induction d with
  | nil => exact fun inv => invLE_refl inv
  | cons kv rest ih =>
    exact fun inv => invLE_trans (resolveGroup_le kv.1 kv.2 inv) (ih _)

theorem resolveDelayed_mem (d : Delayed) (g c : String) (h : delayedMem d g c) :
    ∀ inv : Inventory, (g, c) ∈ (resolveDelayed inv d).children := by
  induction d with
  | nil => exact absurd h.choose_spec.1 (List.not_mem_nil _)
  | cons kv rest ih =>
    intro inv
    obtain ⟨l, hin, hc⟩ := h
    rcases List.mem_cons.mp hin with hhead | htail
    · have hg : g = kv.1 := congrArg Prod.fst hhead
      have hl : l = kv.2 := congrArg Prod.snd hhead
      exact (resolveDelayed_le rest _).2.2.1 (g, c)
        (by rw [hg]; exact resolveGroup_mem kv.1 c kv.2 (hl ▸ hc) inv)
    · exact ih ⟨l, htail, hc⟩ _

theorem processInstances_ok_elim (ty : String) (insts : List Attributes) :
    ∀ (inv : Inventory) (d : Delayed) (s' : Inventory × Delayed)
      (i : Attributes), i ∈ insts →
      processInstances ty insts inv d = (s', none) →
      ∃ s0 s1 : (Inventory × Delayed),
        processInstance ty i s0.1 s0.2 = (s1, none) ∧ stFlows s1 s' := by
  induction insts with
  | nil => exact fun inv d s' i hi _ => absurd hi (List.not_mem_nil _)
  | cons j rest ih =>
    intro inv d s' i hi h
    simp only [processInstances] at h
    rcases hp : processInstance ty j inv d with ⟨s, oe⟩
    rw [hp] at h
    cases oe with
    | none =>
      have h2 : processInstances ty rest s.1 s.2 = (s', none) := h
      rcases List.mem_cons.mp hi with rfl | htail
      · refine ⟨(inv, d), s, hp, ?_⟩
        have hfl := processInstances_flows ty rest s.1 s.2
        rw [h2] at hfl
        exact hfl
      · exact ih s.1 s.2 s' i htail h2
    | some e =>
      have h2 : ((s, some e) : (Inventory × Delayed) × Option ResolveErr) = (s', none) := h
      exact absurd (congrArg Prod.snd h2) (by simp)

theorem processResources_ok_elim (rs : List Resource) :
    ∀ (inv : Inventory) (d : Delayed) (s' : Inventory × Delayed)
      (r : Resource), r ∈ rs →
      processResources rs inv d = (s', none) →
      ∃ s0 s1 : (Inventory × Delayed),
        processResource r s0.1 s0.2 = (s1, none) ∧ stFlows s1 s' := by
  induction rs with
  | nil => exact fun inv d s' r hr _ => absurd hr (List.not_mem_nil _)
  | cons r0 rest ih =>
    intro inv d s' r hr h
    simp only [processResources] at h
    rcases hp : processResource r0 inv d with ⟨s, oe⟩
    rw [hp] at h
    cases oe with
    | none =>
      have h2 : processResources rest s.1 s.2 = (s', none) := h
      rcases List.mem_cons.mp hr with rfl | htail
      · refine ⟨(inv, d), s, hp, ?_⟩
        have hfl := processResources_flows rest s.1 s.2
        rw [h2] at hfl
        exact hfl
      · exact ih s.1 s.2 s' r htail h2
    | some e =>
      have h2 : ((s, some e) : (Inventory × Delayed) × Option ResolveErr) = (s', none) := h
      exact absurd (congrArg Prod.snd h2) (by simp)

theorem processResources_append (a b : List Resource) :
    ∀ (inv : Inventory) (d : Delayed),
      processResources (a ++ b) inv d =
        match processResources a inv d with
        | (s, none) => processResources b s.1 s.2
        | (s, some e) => (s, some e) := by
  induction a with
  | nil => exact fun inv d => rfl
  | cons r rest ih =>
    intro inv d
    simp only [List.cons_append, processResources]
    rcases hp : processResource r inv d with ⟨s, oe⟩
    cases oe with
    | none => exact ih s.1 s.2
    | some e => rfl

theorem processResources_skip (rs : List Resource) :
    (∀ r ∈ rs, r.provider.getD "" ≠ PROVIDER) →
    ∀ (inv : Inventory) (d : Delayed),
      processResources rs inv d = ((inv, d), none) := by
  induction rs with
  | nil => exact fun _ inv d => rfl
  | cons r rest ih =>
    intro h inv d
    have hr : r.provider.getD "" ≠ PROVIDER := h r (List.mem_cons_self r rest)
    have hrest : ∀ x ∈ rest, x.provider.getD "" ≠ PROVIDER :=
      fun x hx => h x (List.mem_cons_of_mem r hx)
    simp only [processResources, processResource, if_neg hr]
    exact ih hrest inv d

theorem processResource_match_eq (r : Resource) (inv : Inventory) (d : Delayed)
    (hp : r.provider.getD "" = PROVIDER) :
    processResource r inv d = processInstances r.type r.instances inv d := by
  simp [processResource, hp]

theorem processInstance_group_ok (data : Attributes) (inv : Inventory)
    (d : Delayed) (s : Inventory × Delayed)
    (h : processInstance "ansible_group" data inv d = (s, none)) :
    data.name ∈ s.1.groups ∧
    ∀ cs, data.children = some cs → ∀ c ∈ cs, delayedMem s.2 data.name c := by
  rw [processInstance_group_eq] at h
  have hs : s = (applyVars (addGroup inv data.name) data.name data.vars,
      match data.children with
      | none => d
      | some cs => cs.foldl (fun acc c => delayedAppend acc data.name c) d) :=
    (congrArg Prod.fst h).symm
  subst hs
  constructor
  · rw [applyVars_groups]
    exact addGroup_mem inv data.name
  · intro cs hcs c hc
    rw [hcs]
    exact delayedFold_mem cs data.name c d hc

theorem processInstance_host_ok (data : Attributes) (inv : Inventory)
    (d : Delayed) (s : Inventory × Delayed) (gs : List String)
    (hgs : data.groups = some gs)
    (h : processInstance "ansible_host" data inv d = (s, none)) :
    data.name ∈ s.1.hosts ∧
    ∀ g ∈ gs, g ∈ s.1.groups ∧ (g, data.name) ∈ s.1.children := by
  rw [processInstance_host_some_eq data inv d gs hgs] at h
  rcases hA : addHostGroups data.name gs (addHost inv data.name) with ⟨inv2, oe⟩
  rw [hA] at h
  cases oe with
  | some e =>
    have h2 : (((inv2, d), some e) :
        (Inventory × Delayed) × Option ResolveErr) = (s, none) := h
    exact absurd (congrArg Prod.snd h2) (by simp)
  | none =>
    have hs : s = (applyVars inv2 data.name data.vars, d) :=
      (congrArg Prod.fst h).symm
    subst hs
    have hle : invLE (addHost inv data.name) inv2 := by
      have hstep := addHostGroups_le data.name gs (addHost inv data.name)
      rwa [hA] at hstep
    constructor
    · rw [applyVars_hosts]
      exact hle.1 _ (addHost_mem inv data.name)
    · intro g hg
      have hmem := addHostGroups_ok data.name gs (addHost inv data.name) inv2 hA g hg
      constructor
      · rw [applyVars_groups]
        exact hmem.1
      · rw [applyVars_children]
        exact hmem.2

theorem parse_ok_elim (rs : List Resource) (inv : Inventory)
    (h : parse rs = (inv, none)) :
    ∃ s : Inventory × Delayed,
      processResources rs Inventory.empty [] = (s, none) ∧
      inv = resolveDelayed s.1 s.2 := by
  unfold parse parseFrom at h
  rcases hp : processResources rs Inventory.empty [] with ⟨s, oe⟩
  rw [hp] at h
  cases oe with
  | none =>
    have h2 : (resolveDelayed s.1 s.2, (none : Option ResolveErr)) = (inv, none) := h
    exact ⟨s, rfl, (congrArg Prod.fst h2).symm⟩
  | some e =>
    have h2 : ((s.1, some e) : Inventory × Option ResolveErr) = (inv, none) := h
    exact absurd (congrArg Prod.snd h2) (by simp)

theorem parse_err_elim (rs : List Resource) (inv : Inventory) (e : ResolveErr)
    (h : parse rs = (inv, some e)) :
    ∃ s : Inventory × Delayed,
      processResources rs Inventory.empty [] = (s, some e) ∧ inv = s.1 := by
  unfold parse parseFrom at h
  rcases hp : processResources rs Inventory.empty [] with ⟨s, oe⟩
  rw [hp] at h
  cases oe with
  | none =>
    have h2 : (resolveDelayed s.1 s.2, (none : Option ResolveErr)) = (inv, some e) := h
    exact absurd (congrArg Prod.snd h2) (by simp)
  | some e2 =>
    have h2 : ((s.1, some e2) : Inventory × Option ResolveErr) = (inv, some e) := h
    have he : e2 = e := by
      have := congrArg Prod.snd h2
      simpa using this
    subst he
    exact ⟨s, rfl, (congrArg Prod.fst h2).symm⟩

theorem tfCandidate_snd (cwd : List String) (envFile : Option String) :
    (tfCandidate cwd envFile).2 = envFile := by
  cases envFile with
  | none => rfl
  | some w =>
    by_cases hd : w = "default"
    · simp [tfCandidate, hd]
    · simp [tfCandidate, hd]

/-- C2: in every state document that resolves without error, a matching
group resource `A` listing `B` among its children together with a matching
group resource declaring `B` — in either relative order, the hypotheses
place no constraint on declaration positions — yields, after resolution,
`B` registered as a group and `B` a child of `A`. -/
theorem delayed_group_child_resolved (rs : List Resource) (inv : Inventory)
    (A B : String) (rA rB : Resource) (iA iB : Attributes)
    (hps : parse rs = (inv, none))
    (hrA : rA ∈ rs) (hprovA : rA.provider.getD "" = PROVIDER)
    (htyA : rA.type = "ansible_group") (hiA : iA ∈ rA.instances)
    (hnameA : iA.name = A) (hchA : ∃ cs, iA.children = some cs ∧ B ∈ cs)
    (hrB : rB ∈ rs) (hprovB : rB.provider.getD "" = PROVIDER)
    (htyB : rB.type = "ansible_group") (hiB : iB ∈ rB.instances)
    (hnameB : iB.name = B) :
    B ∈ inv.groups ∧ (A, B) ∈ inv.children := by
  obtain ⟨s, hpr, hinv⟩ := parse_ok_elim rs inv hps
  obtain ⟨s0, s1, hok, hfl⟩ :=
    processResources_ok_elim rs Inventory.empty [] s rB hrB hpr
  rw [processResource_match_eq rB s0.1 s0.2 hprovB, htyB] at hok
  obtain ⟨t0, t1, hiok, hifl⟩ :=
    processInstances_ok_elim "ansible_group" rB.instances s0.1 s0.2 s1 iB hiB hok
  have hgB := (processInstance_group_ok iB t0.1 t0.2 t1 hiok).1
  rw [hnameB] at hgB
  have hg1 : B ∈ s.1.groups := hfl.1.2.1 B (hifl.1.2.1 B hgB)
  obtain ⟨u0, u1, hok2, hfl2⟩ :=
    processResources_ok_elim rs Inventory.empty [] s rA hrA hpr
  rw [processResource_match_eq rA u0.1 u0.2 hprovA, htyA] at hok2
  obtain ⟨v0, v1, hiok2, hifl2⟩ :=
    processInstances_ok_elim "ansible_group" rA.instances u0.1 u0.2 u1 iA hiA hok2
  obtain ⟨cs, hcs, hBcs⟩ := hchA
  have hdm := (processInstance_group_ok iA v0.1 v0.2 v1 hiok2).2 cs hcs B hBcs
  rw [hnameA] at hdm
  have hdm2 : delayedMem s.2 A B := hfl2.2 A B (hifl2.2 A B hdm)
  subst hinv
  exact ⟨(resolveDelayed_le s.2 s.1).2.1 B hg1,
    resolveDelayed_mem s.2 A B hdm2 s.1⟩

/-- C3 (amended): in every state document that resolves without error, a
matching host resource declaring `groups: ["g"]` yields, after resolution,
the group `g` registered, the host a child of `g`, and the host
registered.  (The amendment conditions on error-free completion: with
`groups: [h]` on a host named `h` the code raises a `ConflictError`
instead of attaching the host.) -/
theorem host_groups_attached_of_ok (rs : List Resource) (inv : Inventory)
    (h g : String) (r : Resource) (i : Attributes)
    (hps : parse rs = (inv, none))
    (hr : r ∈ rs) (hprov : r.provider.getD "" = PROVIDER)
    (hty : r.type = "ansible_host") (hi : i ∈ r.instances)
    (hname : i.name = h) (hgroups : i.groups = some [g]) :
    g ∈ inv.groups ∧ (g, h) ∈ inv.children ∧ h ∈ inv.hosts := by
  obtain ⟨s, hpr, hinv⟩ := parse_ok_elim rs inv hps
  obtain ⟨s0, s1, hok, hfl⟩ :=
    processResources_ok_elim rs Inventory.empty [] s r hr hpr
  rw [processResource_match_eq r s0.1 s0.2 hprov, hty] at hok
  obtain ⟨t0, t1, hiok, hifl⟩ :=
    processInstances_ok_elim "ansible_host" r.instances s0.1 s0.2 s1 i hi hok
  obtain ⟨hhost, hall⟩ := processInstance_host_ok i t0.1 t0.2 t1 [g] hgroups hiok
  obtain ⟨hgrp, hchild⟩ := hall g (List.mem_singleton.mpr rfl)
  rw [hname] at hhost hchild
  have hg1 : g ∈ s.1.groups := hfl.1.2.1 g (hifl.1.2.1 g hgrp)
  have hc1 : (g, h) ∈ s.1.children := hfl.1.2.2.1 _ (hifl.1.2.2.1 _ hchild)
  have hh1 : h ∈ s.1.hosts := hfl.1.1 h (hifl.1.1 h hhost)
  subst hinv
  exact ⟨(resolveDelayed_le s.2 s.1).2.1 g hg1,
    (resolveDelayed_le s.2 s.1).2.2.1 _ hc1,
    (resolveDelayed_le s.2 s.1).1 h hh1⟩

/-- C2 witness: the two-group document `abDoc` (group `A` with children
`["B"]`, group `B` declared later) resolves without error and the
conclusions hold at the computed sink. -/
theorem delayed_group_child_resolved_witness :
    parse abDoc = (⟨[], ["A", "B"], [("A", "B")], []⟩, none) ∧
    ("B" ∈ (⟨[], ["A", "B"], [("A", "B")], []⟩ : Inventory).groups ∧
     ("A", "B") ∈ (⟨[], ["A", "B"], [("A", "B")], []⟩ : Inventory).children) := by
  refine ⟨rfl, ?_⟩
  exact delayed_group_child_resolved abDoc _ "A" "B"
    (groupRes "A" (some ["B"]) none) (groupRes "B" none none)
    ⟨"A", some ["B"], none, none⟩ ⟨"B", none, none, none⟩
    rfl (List.mem_cons_self _ _) rfl rfl (List.mem_cons_self _ _) rfl
    ⟨["B"], rfl, List.mem_singleton.mpr rfl⟩
    (List.mem_cons_of_mem _ (List.mem_cons_self _ _)) rfl rfl
    (List.mem_cons_self _ _) rfl

/-- C3 counterexample: the claim as stated fails on the document with one
host `a` declaring `groups: ["a"]` — before processing, `a` does not exist
as a group name, yet resolution raises a `ConflictError` and the host is
never attached as a child of `a`. -/
theorem host_groups_self_conflict_cex :
    (parse selfGroupHostDoc).2 = some (ResolveErr.conflict "a") ∧
    ("a", "a") ∉ (parse selfGroupHostDoc).1.children := by
  constructor
  · rfl
  · have hch : (parse selfGroupHostDoc).1.children = [] := rfl
    rw [hch]
    exact List.not_mem_nil _

/-- C3 witness: the one-host document `hgDoc` (`host h`, `groups: ["g"]`)
resolves without error with `g` a group and `h` a child of `g`. -/
theorem host_groups_attached_of_ok_witness :
    parse hgDoc = (⟨["h"], ["g"], [("g", "h")], []⟩, none) ∧
    ("g" ∈ (⟨["h"], ["g"], [("g", "h")], []⟩ : Inventory).groups ∧
     ("g", "h") ∈ (⟨["h"], ["g"], [("g", "h")], []⟩ : Inventory).children ∧
     "h" ∈ (⟨["h"], ["g"], [("g", "h")], []⟩ : Inventory).hosts) := by
  refine ⟨rfl, ?_⟩
  exact host_groups_attached_of_ok hgDoc _ "h" "g"
    (hostRes "h" (some ["g"]) none) ⟨"h", none, some ["g"], none⟩
    rfl (List.mem_cons_self _ _) rfl rfl (List.mem_cons_self _ _) rfl rfl

/-- C1 counterexample: with host `x` processed before group `g` listing
`x` among its children, resolution does not fail — the error slot is
`none` and `x` ends up a child of `g`. -/
theorem host_before_group_child_no_conflict_cex :
    (parse hostThenGroupDoc).2 = none ∧
    ("g", "x") ∈ (parse hostThenGroupDoc).1.children := by
  constructor
  · rfl
  · have hch : (parse hostThenGroupDoc).1.children = [("g", "x")] := rfl
    rw [hch]
    exact List.mem_singleton.mpr rfl

/-- C1 (amended): for every host name `X` and group name `G`, processing
host `X` before group `G` with children `[X]` succeeds with no
`ConflictError`: `X` stays a host and is attached as a child of `G` by the
delayed-resolution pass. -/
theorem host_before_group_child_attached (X G : String) :
    parse [hostRes X none none, groupRes G (some [X]) none] =
      (⟨[X], [G], [(G, X)], []⟩, none) := by
  simp [parse, parseFrom, processResources, processResource, processInstances,
    processInstance, hostRes, groupRes, addHost, addGroup, addChild, applyVars,
    resolveDelayed, resolveGroup, resolveChild, delayedAppend, PROVIDER,
    Inventory.empty, List.mem_singleton]

/-- C4: the concrete scenario — group `web` with children `["app1"]` and
host `app1` with null groups and `variables: {"port": 8080}` — resolves
with group `web`, host `app1`, `app1` a child of `web`, and `app1`'s
`port` variable bound to `8080`, and no error. -/
theorem scenario_web_app1 :
    "web" ∈ (parse webApp1Doc).1.groups ∧
    "app1" ∈ (parse webApp1Doc).1.hosts ∧
    ("web", "app1") ∈ (parse webApp1Doc).1.children ∧
    lookupVar (parse webApp1Doc).1 "app1" "port" = some (JValue.num 8080) ∧
    (parse webApp1Doc).2 = none := by
  have hp : parse webApp1Doc =
      (⟨["app1"], ["web"], [("web", "app1")],
        [("app1", "port", JValue.num 8080)]⟩, none) := rfl
  rw [hp]
  exact ⟨List.mem_singleton.mpr rfl, List.mem_singleton.mpr rfl,
    List.mem_singleton.mpr rfl, rfl, rfl⟩

/-- C5: a state document in which no resource's provider equals the
literal `PROVIDER` string produces an empty graph: no hosts, no groups, no
child edges, no variable bindings, and no error. -/
theorem nonmatching_provider_empty (rs : List Resource)
    (h : ∀ r ∈ rs, r.provider.getD "" ≠ PROVIDER) :
    (parse rs).1.hosts = [] ∧ (parse rs).1.groups = [] ∧
    (parse rs).1.children = [] ∧ (parse rs).1.vars = [] ∧
    (parse rs).2 = none := by
  have hp : parse rs = (Inventory.empty, none) := by
    unfold parse parseFrom
    rw [processResources_skip rs h Inventory.empty []]
    rfl
  rw [hp]
  exact ⟨rfl, rfl, rfl, rfl, rfl⟩

/-- C5 witness: a document whose single resource names provider `other`
resolves to the empty graph. -/
theorem nonmatching_provider_empty_witness :
    (∀ r ∈ otherProviderDoc, r.provider.getD "" ≠ PROVIDER) ∧
    ((parse otherProviderDoc).1.hosts = [] ∧
     (parse otherProviderDoc).1.groups = [] ∧
     (parse otherProviderDoc).1.children = [] ∧
     (parse otherProviderDoc).1.vars = [] ∧
     (parse otherProviderDoc).2 = none) :=
  ⟨by decide, nonmatching_provider_empty otherProviderDoc (by decide)⟩

/-- C6: the locator's candidate path is the workspace-scoped
`<workdir>/terraform.tfstate.d/<workspace>/terraform.tfstate` exactly when
the marker file exists with text different from `default`; when the marker
is absent or reads `default`, it is `<workdir>/terraform.tfstate`. -/
theorem tf_candidate_selection (cwd : List String) (envFile : Option String) :
    (∀ w, envFile = some w → w ≠ "default" →
      (tfCandidate cwd envFile).1 =
        pathAppend (cwd ++ ["terraform.tfstate.d"]) w ++ ["terraform.tfstate"]) ∧
    ((envFile = none ∨ envFile = some "default") →
      (tfCandidate cwd envFile).1 = cwd ++ ["terraform.tfstate"]) := by
  constructor
  · intro w hw hne
    subst hw
    simp [tfCandidate, hne]
  · intro hcase
    rcases hcase with rfl | rfl
    · rfl
    · simp [tfCandidate]

/-- C6 witness: with workspace `staging` the candidate is the
workspace-scoped path; with no marker it is the default path. -/
theorem tf_candidate_selection_witness :
    (tfCandidate ["/work"] (some "staging")).1 =
      ["/work", "terraform.tfstate.d", "staging", "terraform.tfstate"] ∧
    (tfCandidate ["/work"] none).1 = ["/work", "terraform.tfstate"] := by
  constructor
  · have h := (tf_candidate_selection ["/work"] (some "staging")).1 "staging"
      rfl (by decide)
    rw [h]
    rfl
  · exact (tf_candidate_selection ["/work"] none).2 (Or.inl rfl)

/-- C7: when the candidate state path does not exist, `get_tf_state`
fails with an error whose message contains the rendered path attempted
and, whenever a workspace name was read from the marker file, that
workspace name. -/
theorem tf_state_missing_error (E : LocatorEnv)
    (h : E.fsExists (tfCandidate E.cwd E.envFile).1 = false) :
    ∃ msg : String, get_tf_state E = .error ⟨msg⟩ ∧
      strContains msg (pathString (tfCandidate E.cwd E.envFile).1) ∧
      ∀ w, E.envFile = some w → strContains msg w := by
  refine ⟨"Could not locate the terraform state file" ++
      envString (tfCandidate E.cwd E.envFile).2 ++ ". Expected at: " ++
      pathString (tfCandidate E.cwd E.envFile).1, ?_, ?_, ?_⟩
  · simp [get_tf_state, h]
  · refine ⟨"Could not locate the terraform state file" ++
      envString (tfCandidate E.cwd E.envFile).2 ++ ". Expected at: ", "", ?_⟩
    rw [String.append_empty]
  · intro w hw
    by_cases hempty : w = ""
    · exact ⟨"Could not locate the terraform state file" ++
        envString (tfCandidate E.cwd E.envFile).2 ++ ". Expected at: " ++
        pathString (tfCandidate E.cwd E.envFile).1, "",
        by rw [hempty, String.append_empty, String.append_empty]⟩
    · have h2 : envString (tfCandidate E.cwd E.envFile).2 =
          " for workspace " ++ w := by
        rw [tfCandidate_snd, hw]
        simp [envString, hempty]
      refine ⟨"Could not locate the terraform state file" ++ " for workspace ",
        ". Expected at: " ++ pathString (tfCandidate E.cwd E.envFile).1, ?_⟩
      rw [h2]
      simp only [String.append_assoc]

/-- C7 witness: with marker text `staging` and no state file anywhere,
the locator error names the exact workspace-scoped path and the
workspace `staging`. -/
theorem tf_state_missing_error_witness :
    stagingEnv.fsExists (tfCandidate stagingEnv.cwd stagingEnv.envFile).1 = false ∧
    ∃ msg : String, get_tf_state stagingEnv = .error ⟨msg⟩ ∧
      strContains msg "/work/terraform.tfstate.d/staging/terraform.tfstate" ∧
      strContains msg "staging" := by
  refine ⟨rfl, ?_⟩
  obtain ⟨msg, h1, h2, h3⟩ := tf_state_missing_error stagingEnv rfl
  refine ⟨msg, h1, ?_, h3 "staging" rfl⟩
  have hps : pathString (tfCandidate stagingEnv.cwd stagingEnv.envFile).1 =
      "/work/terraform.tfstate.d/staging/terraform.tfstate" := rfl
  rw [← hps]
  exact h2

/-- C8: resolution is deterministic — running the resolver over the same
resource list against two fresh empty sinks yields structurally identical
graphs (same hosts, groups, child edges and variable bindings) and the
same error outcome. -/
theorem parse_deterministic (rs : List Resource) (s1 s2 : Inventory)
    (h1 : s1 = Inventory.empty) (h2 : s2 = Inventory.empty) :
    (parseFrom rs s1).1.hosts = (parseFrom rs s2).1.hosts ∧
    (parseFrom rs s1).1.groups = (parseFrom rs s2).1.groups ∧
    (parseFrom rs s1).1.children = (parseFrom rs s2).1.children ∧
    (parseFrom rs s1).1.vars = (parseFrom rs s2).1.vars ∧
    (parseFrom rs s1).2 = (parseFrom rs s2).2 := by
  subst h1
  subst h2
  exact ⟨rfl, rfl, rfl, rfl, rfl⟩

/-- C8 witness: two fresh-sink runs over the C4 scenario document agree. -/
theorem parse_deterministic_witness :
    (Inventory.empty = Inventory.empty) ∧
    ((parseFrom webApp1Doc Inventory.empty).1.hosts =
        (parseFrom webApp1Doc Inventory.empty).1.hosts ∧
     (parseFrom webApp1Doc Inventory.empty).1.groups =
        (parseFrom webApp1Doc Inventory.empty).1.groups ∧
     (parseFrom webApp1Doc Inventory.empty).1.children =
        (parseFrom webApp1Doc Inventory.empty).1.children ∧
     (parseFrom webApp1Doc Inventory.empty).1.vars =
        (parseFrom webApp1Doc Inventory.empty).1.vars ∧
     (parseFrom webApp1Doc Inventory.empty).2 =
        (parseFrom webApp1Doc Inventory.empty).2) :=
  ⟨rfl, parse_deterministic webApp1Doc Inventory.empty Inventory.empty rfl rfl⟩

/-- C9: when resolution aborts with an error, nothing is rolled back —
every host, group, child edge and variable binding the sink acquired while
processing any prefix of the resource list is still present in the sink
returned with the error. -/
theorem parse_no_rollback (rs rs1 rs2 : List Resource) (inv : Inventory)
    (e : ResolveErr) (hsplit : rs = rs1 ++ rs2)
    (herr : parse rs = (inv, some e)) :
    invLE (processResources rs1 Inventory.empty []).1.1 inv := by
  subst hsplit
  obtain ⟨s, hp, hinv⟩ := parse_err_elim (rs1 ++ rs2) inv e herr
  rw [processResources_append rs1 rs2 Inventory.empty []] at hp
  rcases h1 : processResources rs1 Inventory.empty [] with ⟨t, oe⟩
  rw [h1] at hp
  cases oe with
  | none =>
    have hp2 : processResources rs2 t.1 t.2 = (s, some e) := hp
    have hfl := processResources_flows rs2 t.1 t.2
    rw [hp2] at hfl
    subst hinv
    exact hfl.1
  | some e2 =>
    have hp2 : ((t, some e2) :
        (Inventory × Delayed) × Option ResolveErr) = (s, some e) := hp
    have ht : t = s := congrArg Prod.fst hp2
    subst hinv
    rw [ht]
    exact invLE_refl s.1

/-- C9 witness: `conflictDoc` aborts with a conflict on `h`; the group
`h`, the host `h` and the group `g` added before the failing check are all
still in the returned sink. -/
theorem parse_no_rollback_witness :
    conflictDoc = [groupRes "h" none none] ++ [hostRes "h" (some ["g"]) none] ∧
    parse conflictDoc =
      (⟨["h"], ["h", "g"], [], []⟩, some (ResolveErr.conflict "h")) ∧
    invLE (processResources [groupRes "h" none none] Inventory.empty []).1.1
      (⟨["h"], ["h", "g"], [], []⟩ : Inventory) :=
  ⟨rfl, rfl,
   parse_no_rollback conflictDoc [groupRes "h" none none]
     [hostRes "h" (some ["g"]) none] ⟨["h"], ["h", "g"], [], []⟩
     (ResolveErr.conflict "h") rfl rfl⟩

/-- C10: a host resource whose `groups` attribute is null skips the
conflict check entirely: the instance is processed without error and the
host is registered, for any prior sink state — including one where the
host's name is already a group name. -/
theorem host_null_groups_skips_conflict_check (data : Attributes)
    (inv : Inventory) (d : Delayed) (h : data.groups = none) :
    (processInstance "ansible_host" data inv d).2 = none ∧
    data.name ∈ (processInstance "ansible_host" data inv d).1.1.hosts := by
  rw [processInstance_host_none_eq data inv d h]
  constructor
  · rfl
  · rw [applyVars_hosts]
    exact addHost_mem inv data.name

/-- C10 witness: a host `h` with null groups, processed against a sink
where `h` is already a group name, raises no error and is added. -/
theorem host_null_groups_skips_conflict_check_witness :
    (⟨"h", none, none, none⟩ : Attributes).groups = none ∧
    "h" ∈ (⟨[], ["h"], [], []⟩ : Inventory).groups ∧
    ((processInstance "ansible_host" ⟨"h", none, none, none⟩
        ⟨[], ["h"], [], []⟩ []).2 = none ∧
     "h" ∈ (processInstance "ansible_host" ⟨"h", none, none, none⟩
        ⟨[], ["h"], [], []⟩ []).1.1.hosts) :=
  ⟨rfl, List.mem_singleton.mpr rfl,
   host_null_groups_skips_conflict_check ⟨"h", none, none, none⟩
     ⟨[], ["h"], [], []⟩ [] rfl⟩
